import Mathlib

/-!
Verification of the Emphatic FAT32 driver (mfatic) against its design
specification.  The definitions below are a shallow embedding of the C
sources: `table.c` (FAT sector cache), `fat_alloc.c` (free-space map and
allocation policy), `fileio.c` (file handles, seek, read, write),
`mfatic-fuse.c` (the FUSE facade, in particular `mfatic_truncate` and
`mfatic_read`), `create.c` and `dostimes.c` (DOS/UNIX time conversion).
Machine integers are modelled as `Nat` with explicit masking where the C
code masks; `off_t` values that may be negative are modelled as `Int`.

A FAT cell is a 32-bit value (`fat_entry_t`); the device's copy of the FAT
is modelled as a total function from cell index to cell value.
-/

namespace Mfatic

/-! ## FAT cell constants and predicates (`fat.h`) -/

/-- `END_CLUSTER_MARK` from `fat.h`: the end-of-chain sentinel. -/
def END_CLUSTER_MARK : Nat := 0x0FFFFFF8

/-- `IS_FREE_CLUSTER(entry)` from `fat.h`: `(entry & 0x0FFFFFFF) == 0`. -/
def IS_FREE_CLUSTER (entry : Nat) : Prop := entry &&& 0x0FFFFFFF = 0

instance (entry : Nat) : Decidable (IS_FREE_CLUSTER entry) :=
  inferInstanceAs (Decidable (entry &&& 0x0FFFFFFF = 0))

/-- `IS_LAST_CLUSTER(entry)` from `fat.h`: `(entry & 0x0FFFFFFF) >= 0x0FFFFFF8`. -/
def IS_LAST_CLUSTER (entry : Nat) : Prop := 0x0FFFFFF8 ≤ entry &&& 0x0FFFFFFF

instance (entry : Nat) : Decidable (IS_LAST_CLUSTER entry) :=
  inferInstanceAs (Decidable (0x0FFFFFF8 ≤ entry &&& 0x0FFFFFFF))

/-! ## Bitmask toolkit

Helper lemmas about `&&&`/`|||` with the two disjoint masks `0xF0000000`
(reserved high 4 bits) and `0x0FFFFFFF` (28-bit cluster linkage) that
`put_fat_entry` combines. -/

theorem land_masks_disjoint : (0xF0000000 : Nat) &&& 0x0FFFFFFF = 0 := by
  decide

theorem testBit_and_eq_zero {m1 m2 : Nat} (h : m1 &&& m2 = 0) (i : Nat) :
    ¬(m1.testBit i = true ∧ m2.testBit i = true) := by
  intro ⟨h1, h2⟩
  have := Nat.testBit_land m1 m2 i
  rw [h, h1, h2] at this
  simp at this

theorem masked_or_and_left (a b m1 m2 : Nat) (h : m1 &&& m2 = 0) :
    ((a &&& m1) ||| (b &&& m2)) &&& m1 = a &&& m1 := by
  apply Nat.eq_of_testBit_eq
  intro i
  simp only [Nat.testBit_land, Nat.testBit_lor]
  have hd := testBit_and_eq_zero h i
  cases h1 : m1.testBit i <;> cases h2 : m2.testBit i <;>
    cases ha : a.testBit i <;> cases hb : b.testBit i <;> simp_all

theorem masked_or_and_right (a b m1 m2 : Nat) (h : m1 &&& m2 = 0) :
    ((a &&& m1) ||| (b &&& m2)) &&& m2 = b &&& m2 := by
  apply Nat.eq_of_testBit_eq
  intro i
  simp only [Nat.testBit_land, Nat.testBit_lor]
  have hd := testBit_and_eq_zero h i
  cases h1 : m1.testBit i <;> cases h2 : m2.testBit i <;>
    cases ha : a.testBit i <;> cases hb : b.testBit i <;> simp_all

theorem and_mask28_eq_mod (a : Nat) : a &&& 0x0FFFFFFF = a % 2 ^ 28 := by
  have : (0x0FFFFFFF : Nat) = 2 ^ 28 - 1 := by decide
  rw [this, Nat.and_pow_two_sub_one_eq_mod]

/-! ## FAT cache write path: `put_fat_entry` (`table.c`)

`put_fat_entry` seeks the device to the cell, reads the old 32-bit value,
combines `(old & 0xF0000000) | (val & 0x0FFFFFFF)` and writes it back.
The cache is not consulted or updated.  We model the device's FAT as a
function from cell index to cell value; `put_fat_entry` returns the
updated device FAT. -/

def put_fat_entry (dev : Nat → Nat) (entry val : Nat) : Nat → Nat :=
  fun c =>
    if c = entry then (dev entry &&& 0xF0000000) ||| (val &&& 0x0FFFFFFF)
    else dev c

/-- Claim C9: for every FAT cell index and every 32-bit value `v`,
`put_fat_entry` writes to the device exactly
`(old & 0xF0000000) | (v & 0x0FFFFFFF)` where `old` is the cell's device
value immediately before the write; hence the high 4 reserved bits of the
cell are preserved, and every other cell is untouched. -/
theorem c9_put_fat_entry_preserves_reserved_bits (dev : Nat → Nat)
    (entry v : Nat) :
    put_fat_entry dev entry v entry =
      ((dev entry &&& 0xF0000000) ||| (v &&& 0x0FFFFFFF)) ∧
    put_fat_entry dev entry v entry &&& 0xF0000000 =
      dev entry &&& 0xF0000000 ∧
    ∀ c : Nat, c ≠ entry → put_fat_entry dev entry v c = dev c := by
  refine ⟨?_, ?_, ?_⟩
  · simp [put_fat_entry]
  · simp only [put_fat_entry, if_pos rfl]
    exact masked_or_and_left _ _ _ _ land_masks_disjoint
  · intro c hc
    simp [put_fat_entry, hc]

/-! ## FAT sector cache (`table.c`)

`table.c` keeps an intrusive singly linked list of `cache_entry` records
(fields `key`, `sector`, `next`), with head pointer `lru`, tail pointer
`mru` and a free-slot counter `available` (initially `CACHE_SECTORS_MAX`,
128).  We model the C heap explicitly: entries live in an address-indexed
store, and `next`/`lru`/`mru` are optional addresses, so the pointer
manipulation of `add_to_mru`, `unlink_item` and `lookup_item` is
reproduced exactly (including its aliasing behaviour).  The model fixes
the standard geometry of 512-byte sectors, hence 128 four-byte FAT cells
per sector. -/

def SECTOR_SIZE : Nat := 512

def FAT_ENTSIZE : Nat := 4

def CACHE_SECTORS_MAX : Nat := 128

structure cache_entry where
  key : Nat
  sector : List Nat
  next : Option Nat
deriving Repr, DecidableEq

structure fat_cluster_cache where
  store : List (Nat × cache_entry)
  lru : Option Nat
  mru : Option Nat
  available : Nat
  nextAddr : Nat
deriving Repr, DecidableEq

/-- A `cache_entry_t **` in the C code is either the address of the
`lru` head pointer or the address of some entry's `next` field. -/
inductive cache_slot where
  | lruPtr : cache_slot
  | nextOf : Nat → cache_slot
deriving Repr, DecidableEq

def heapGet (s : fat_cluster_cache) (a : Nat) : Option cache_entry :=
  (s.store.find? (fun p => p.1 == a)).map (fun p => p.2)

def heapSetNext (s : fat_cluster_cache) (a : Nat) (v : Option Nat) :
    fat_cluster_cache :=
  { s with store := s.store.map (fun p =>
      if p.1 == a then (p.1, { p.2 with next := v }) else p) }

def heapRemove (s : fat_cluster_cache) (a : Nat) : fat_cluster_cache :=
  { s with store := s.store.filter (fun p => p.1 != a) }

def readSlot (s : fat_cluster_cache) : cache_slot → Option Nat
  | .lruPtr => s.lru
  | .nextOf a => (heapGet s a).bind (fun e => e.next)

def writeSlot (s : fat_cluster_cache) : cache_slot → Option Nat →
    fat_cluster_cache
  | .lruPtr, v => { s with lru := v }
  | .nextOf a, v => heapSetNext s a v

/-- `table_init`: empty cache with `CACHE_SECTORS_MAX` available slots. -/
def table_init : fat_cluster_cache :=
  { store := [], lru := none, mru := none, available := CACHE_SECTORS_MAX,
    nextAddr := 0 }

/-- `unlink_item`: `*item_pointer = (*item_pointer)->next; available += 1`.
Returns the unlinked entry's address.  Callers only invoke it on a slot
holding a non-null pointer; the `none` branch is unreachable. -/
def unlink_item (s : fat_cluster_cache) (slot : cache_slot) :
    fat_cluster_cache × Nat :=
  match readSlot s slot with
  | none => (s, 0)
  | some a =>
    let nxt := ((heapGet s a).map (fun e => e.next)).getD none
    let s1 := writeSlot s slot nxt
    ({ s1 with available := s1.available + 1 }, a)

/-- `add_to_mru`: evict the LRU head when no slot is available, then link
the new item with `new_item->next = cache.mru; cache.mru = new_item`,
setting `lru` as well when it was null. -/
def add_to_mru (s : fat_cluster_cache) (a : Nat) : fat_cluster_cache :=
  let s1 :=
    if s.available = 0 then
      let (s', t) := unlink_item s .lruPtr
      heapRemove s' t
    else { s with available := s.available - 1 }
  let s2 := heapSetNext s1 a s1.mru
  let s3 := { s2 with mru := some a }
  if s3.lru = none then { s3 with lru := some a } else s3

/-- The slot-search loop of `lookup_item`: step `cp` along the chain from
`&cache.lru` while `*cp != NULL && (*cp)->key != key`.  Fuel bounds the
walk (the C list can become cyclic, see `add_to_mru`). -/
def find_slot (s : fat_cluster_cache) (key : Nat) :
    Nat → cache_slot → cache_slot
  | 0, slot => slot
  | fuel + 1, slot =>
    match readSlot s slot with
    | none => slot
    | some a =>
      match heapGet s a with
      | none => slot
      | some e =>
        if e.key = key then slot else find_slot s key fuel (.nextOf a)

/-- `lookup_item`: on a hit, unlink the matching item and re-add it at the
MRU end, returning the item's address. -/
def lookup_item (s : fat_cluster_cache) (key : Nat) :
    Option (fat_cluster_cache × Nat) :=
  let slot := find_slot s key (s.store.length + 1) .lruPtr
  match readSlot s slot with
  | none => none
  | some _ =>
    let (s1, a) := unlink_item s slot
    some (add_to_mru s1 a, a)

/-- The contents of FAT sector `index` as currently on the device. -/
def dev_sector (dev : Nat → Nat) (index : Nat) : List Nat :=
  (List.range (SECTOR_SIZE / FAT_ENTSIZE)).map
    (fun j => dev (index * (SECTOR_SIZE / FAT_ENTSIZE) + j))

/-- `get_sector`: return the cached sector on a hit; on a miss, read the
sector from the device, insert it at the MRU end and return it. -/
def get_sector (s : fat_cluster_cache) (dev : Nat → Nat) (index : Nat) :
    fat_cluster_cache × List Nat :=
  match lookup_item s index with
  | some (s', a) => (s', ((heapGet s' a).map (fun e => e.sector)).getD [])
  | none =>
    let a := s.nextAddr
    let e : cache_entry :=
      { key := index, sector := dev_sector dev index, next := none }
    let s1 := { s with store := s.store ++ [(a, e)], nextAddr := a + 1 }
    (add_to_mru s1 a, e.sector)

/-- `get_fat_entry`: read a FAT cell through the sector cache. -/
def get_fat_entry (s : fat_cluster_cache) (dev : Nat → Nat) (entry : Nat) :
    fat_cluster_cache × Nat :=
  let fat_offset := entry * FAT_ENTSIZE
  let sector_index := fat_offset / SECTOR_SIZE
  let (s', sec) := get_sector s dev sector_index
  let off := fat_offset % SECTOR_SIZE / FAT_ENTSIZE
  (s', sec.getD off 0)

/-- Claim C1: the write-through invariant fails.  Starting from a fresh
cache over a device whose FAT cells are all zero: `get_fat_entry 5` loads
FAT sector 0 into the cache and returns 0; `put_fat_entry 5 7` updates the
device cell to 7 but, writes bypassing the cache, leaves the cached
sector buffer untouched; the following `get_fat_entry 5` is served from
the resident buffer and returns the stale value 0 although the device now
holds 7.  This contradicts the claim (and `table.c`'s own header comment
that "the cache is always consistent with the state of the FAT"). -/
theorem c1_cache_stale_after_put :
    (get_fat_entry (get_fat_entry table_init (fun _ => 0) 5).1
        (put_fat_entry (fun _ => 0) 5 7) 5).2 = 0 ∧
    put_fat_entry (fun _ => 0) 5 7 5 = 7 ∧
    (get_fat_entry (get_fat_entry table_init (fun _ => 0) 5).1
        (put_fat_entry (fun _ => 0) 5 7) 5).2 ≠
      put_fat_entry (fun _ => 0) 5 7 5 := by
  refine ⟨by decide, by decide, by decide⟩

/-! ## Free-space map (`fat_alloc.c`)

`struct free_region` holds a starting cluster index and a run length; the
global `free_map` is a singly linked list of regions, modelled as a Lean
list.  (`init_clusters_map` additionally keeps a zero-length header node
in front of the built regions; the theorems below concern the regions the
mount-time scan appends after it.) -/

structure free_region where
  start : Nat
  length : Nat
deriving Repr, DecidableEq

/-- The loop body of `build_free_list`, folded over one FAT cell.  State:
the regions built so far (the source appends at the tail through `*list`)
and the `prev_alloced` flag.  Note `new->start = buffer[i]` stores the
*contents* of the FAT cell, exactly as the source does. -/
def build_free_step (acc : List free_region × Bool) (cell : Nat) :
    List free_region × Bool :=
  let (regions, prev_alloced) := acc
  if IS_FREE_CLUSTER cell then
    if prev_alloced then
      (regions ++ [{ start := cell, length := 1 }], false)
    else
      match regions.getLast? with
      | some last =>
        (regions.dropLast ++ [{ last with length := last.length + 1 }],
          false)
      | none => (regions, false)
  else
    (regions, true)

/-- `init_clusters_map`: scan every FAT cell in order (the source reads
the FAT sector by sector and calls `build_free_list` on each buffer;
folding over the concatenation of all sectors is the same computation).
`prev_alloced` starts `true`.  Result: the list of regions appended after
the zero-length header node. -/
def init_clusters_map (cells : List Nat) : List free_region :=
  (cells.foldl build_free_step ([], true)).1

/-- Claim C2: the mount-time build is wrong.  On the FAT
`[EOC, free, EOC, free]` (cluster 0 allocated, cluster 1 free, cluster 2
allocated, cluster 3 free) the scan creates two regions whose `start`
fields are both 0 — `build_free_list` stores the FAT cell's *contents*
(`new->start = buffer[i]`, which is 0 for a free cell) instead of the
cluster's *index*.  The claimed invariants fail: the starts are not
strictly increasing, and the first region's start (0) is not the cluster
index of the first free cluster of its run (1). -/
theorem c2_build_free_list_stores_cell_value :
    init_clusters_map [0x0FFFFFF8, 0, 0x0FFFFFF8, 0] =
      [{ start := 0, length := 1 }, { start := 0, length := 1 }] ∧
    ¬ (((init_clusters_map [0x0FFFFFF8, 0, 0x0FFFFFF8, 0]).getD 0
          { start := 0, length := 0 }).start <
        ((init_clusters_map [0x0FFFFFF8, 0, 0x0FFFFFF8, 0]).getD 1
          { start := 0, length := 0 }).start) ∧
    ((init_clusters_map [0x0FFFFFF8, 0, 0x0FFFFFF8, 0]).getD 0
        { start := 0, length := 0 }).start ≠ 1 := by
  refine ⟨by decide, by decide, by decide⟩

/-! ### Allocation policy: nearest free cluster (`fat_alloc.c`) -/

/-- `distance`: closest distance from a free region to a cluster.  The
source computes in `unsigned int`; the `else` branch
`cluster - (region->start + region->length)` is 32-bit wrapping
subtraction, which we write out explicitly. -/
def distance (region : free_region) (cluster : Nat) : Nat :=
  if cluster < region.start then region.start - cluster
  else (cluster + 2 ^ 32 - (region.start + region.length)) % 2 ^ 32

/-- The fold performed by `traverse_map` with the `nearest` callback:
`candidate` replaces `current` only when strictly closer, so ties keep
the earlier node.  We carry the node together with its position in the
list.  In the source `current` starts at the `free_map` header node and
the header is also the first candidate (a no-op self-comparison), so
the fold is seeded with the header; `traverse_nearest` below does so.
`get_nearest_idx` seeds it with the first built region instead, i.e. it
is the search restricted to the built regions. -/
def nearest_from (cmp : Nat) :
    free_region × Nat → List free_region → Nat → free_region × Nat
  | cur, [], _ => cur
  | cur, c :: rest, i =>
    nearest_from cmp
      (if distance c cmp < distance cur.1 cmp then (c, i) else cur)
      rest (i + 1)

/-- Index of the built region chosen by the nearest search restricted
to the built regions — the header node of the in-memory list is left
out here (for the walk over the full list, header included, see
`traverse_nearest` below). -/
def get_nearest_idx (regions : List free_region) (near : Nat) : Nat :=
  match regions with
  | [] => 0
  | r :: rest => (nearest_from near (r, 0) rest 1).2

/-- `get_nearest_free` restricted to the built regions: allocate one
cluster from the region nearest to `near` — its first cluster when
`near` is to the region's left, its last cluster otherwise — shrink the
region by one, and unlink the region when its length reaches zero.  On
an empty map the source dereferences a null pointer (out-of-space is
underspecified, spec §7); the `[]` branch is unreachable.  The
in-memory list additionally carries the header node, which the nearest
search can select; `get_nearest_free_map` below models the full list.
This restricted version feeds `alloc_clusters`, whose theorems depend
only on how many allocations are made, not on which clusters are
picked. -/
def get_nearest_free (regions : List free_region) (near : Nat) :
    Nat × List free_region :=
  match regions with
  | [] => (0, [])
  | r :: rest =>
    let idx := get_nearest_idx (r :: rest) near
    let reg := (r :: rest).getD idx { start := 0, length := 0 }
    if near < reg.start then
      let reg' : free_region :=
        { start := reg.start + 1, length := reg.length - 1 }
      (reg.start,
        if reg.length - 1 = 0 then (r :: rest).eraseIdx idx
        else (r :: rest).set idx reg')
    else
      let reg' : free_region := { reg with length := reg.length - 1 }
      (reg.start + reg.length - 1,
        if reg.length - 1 = 0 then (r :: rest).eraseIdx idx
        else (r :: rest).set idx reg')

/-- `new_cluster`: pick the nearest free cluster, mark it with the
end-of-chain sentinel, and point `near`'s FAT cell at it. -/
def new_cluster (dev : Nat → Nat) (regions : List free_region)
    (near : Nat) : Nat × List free_region × (Nat → Nat) :=
  let (chosen, regions') := get_nearest_free regions near
  let dev1 := put_fat_entry dev chosen END_CLUSTER_MARK
  let dev2 := put_fat_entry dev1 near chosen
  (chosen, regions', dev2)

/-! ### Allocation policy: largest region (`fat_alloc.c`, `create.c`) -/

/-- The fold performed by `traverse_map` with the `largest` callback:
`candidate` replaces `current` only when strictly longer. -/
def largest_from :
    free_region × Nat → List free_region → Nat → free_region × Nat
  | cur, [], _ => cur
  | cur, c :: rest, i =>
    largest_from
      (if cur.1.length < c.length then (c, i) else cur) rest (i + 1)

/-- `get_largest_region`: the first region of maximal length, with its
position in the list. -/
def get_largest_region (regions : List free_region) : free_region × Nat :=
  match regions with
  | [] => ({ start := 0, length := 0 }, 0)
  | r :: rest => largest_from (r, 0) rest 1

/-- Modelled from the spec: `fat_alloc_node` is called by `fat_create`
(`create.c`) but its body is absent from the sources; spec §4.3
(`alloc-node`) says: "choose the largest region.  Allocate the cluster at
its midpoint, shrinking the region (or splitting it into two sub-regions
if the midpoint is interior)."  `get_largest_region` above is the
source's own selection function; the midpoint split follows the spec's
words, dropping empty sub-regions. -/
def fat_alloc_node (regions : List free_region) : Nat × List free_region :=
  match regions with
  | [] => (0, [])
  | r :: rest =>
    let (reg, idx) := get_largest_region (r :: rest)
    let mid := reg.start + reg.length / 2
    let left : free_region := { start := reg.start, length := mid - reg.start }
    let right : free_region :=
      { start := mid + 1, length := reg.start + reg.length - (mid + 1) }
    let parts := (if left.length = 0 then [] else [left]) ++
      (if right.length = 0 then [] else [right])
    (mid, (r :: rest).take idx ++ parts ++ (r :: rest).drop (idx + 1))

/-- `fat_create` (`create.c`): build a fresh directory entry whose
cluster field is the node returned by `fat_alloc_node`; we model the
allocation, which is what claim C4 concerns. -/
def fat_create (regions : List free_region) : Nat × List free_region :=
  fat_alloc_node regions

/-! ### Releasing clusters (`fat_alloc.c`) -/

/-- `merge_region`: merge a released cluster into a neighbouring free
region, creating a fresh length-1 region before or after it when the
cluster is not adjacent.  Returns the replacement sublist (one or two
regions) for the region's position in the list.  The source compares
`released < reg->start - 1` in unsigned arithmetic; for `reg.start ≥ 1`
(always true of real regions, cluster indices being ≥ 2) this is
`released + 1 < reg.start` as written here. -/
def merge_region (reg : free_region) (released : Nat) : List free_region :=
  if released + 1 < reg.start ∨ released > reg.start + reg.length then
    if released > reg.start + reg.length then [reg, { start := released, length := 1 }]
    else [{ start := released, length := 1 }, reg]
  else
    let reg1 := if released + 1 = reg.start then
      { reg with start := reg.start - 1 } else reg
    let reg2 := if released = reg1.start + reg1.length then
      { reg1 with length := reg1.length + 1 } else reg1
    [reg2]

/-- `merge_free_regions` + the neighbour search of `release_cluster`:
find the regions directly left and right of `c` in the ordered list and
merge the freed cluster in.  `idx` is the number of regions with
`start < c` (where the source's `right` pointer stops). -/
def merge_free_regions (regions : List free_region) (released : Nat) :
    List free_region :=
  let idx := (regions.takeWhile (fun r => r.start < released)).length
  match idx, regions with
  | _, [] => []
  | 0, _ =>
    -- no left neighbour: merge into the first region.
    merge_region (regions.getD 0 { start := 0, length := 0 }) released ++
      regions.drop 1
  | i + 1, _ =>
    if i + 1 < regions.length then
      -- both neighbours present.
      let right := regions.getD (i + 1) { start := 0, length := 0 }
      if released + 1 = right.start then
        regions.set (i + 1) { right with start := released }
      else
        regions.take i ++
          merge_region (regions.getD i { start := 0, length := 0 }) released ++
          regions.drop (i + 1)
    else
      -- no right neighbour: merge into the last region.
      regions.take i ++
        merge_region (regions.getD i { start := 0, length := 0 }) released

/-- `release_cluster`: merge the freed cluster into the free-space map
and clear its FAT cell to zero. -/
def release_cluster (dev : Nat → Nat) (regions : List free_region)
    (c : Nat) : List free_region × (Nat → Nat) :=
  (merge_free_regions regions c, put_fat_entry dev c 0x00000000)

/-! ## Correctness of the nearest-region selection (claim C5) -/

/-- Default region for `List.getD`. -/
def dfl : free_region := { start := 0, length := 0 }

theorem getD_eq_of_lt (l : List free_region) (i : Nat) (h : i < l.length) :
    l.getD i dfl = l[i] := by
  simp [List.getD_eq_getElem?_getD, List.getElem?_eq_getElem h]

theorem getD_nat_eq_of_lt (l : List Nat) (i : Nat) (d : Nat)
    (h : i < l.length) : l.getD i d = l[i] := by
  simp [List.getD_eq_getElem?_getD, List.getElem?_eq_getElem h]

/-- Loop invariant of `traverse_map` with the `nearest` callback: the fold
returns the position of the first region at minimal distance.  `cands` is
the still-unvisited suffix starting at position `i`; `cur` is the best
(region, position) among positions `< i`. -/
theorem nearest_from_spec (cmp : Nat) (regions : List free_region) :
    ∀ (cands : List free_region) (i : Nat) (cur : free_region × Nat),
      cands = regions.drop i →
      cur.2 < i →
      cur.2 < regions.length →
      cur.1 = regions.getD cur.2 dfl →
      (∀ j, j < i → j < regions.length →
        distance cur.1 cmp ≤ distance (regions.getD j dfl) cmp) →
      (∀ j, j < cur.2 →
        distance cur.1 cmp < distance (regions.getD j dfl) cmp) →
      (nearest_from cmp cur cands i).2 < regions.length ∧
      (nearest_from cmp cur cands i).1 =
        regions.getD (nearest_from cmp cur cands i).2 dfl ∧
      (∀ j, j < regions.length →
        distance (nearest_from cmp cur cands i).1 cmp ≤
          distance (regions.getD j dfl) cmp) ∧
      (∀ j, j < (nearest_from cmp cur cands i).2 →
        distance (nearest_from cmp cur cands i).1 cmp <
          distance (regions.getD j dfl) cmp) := by
  intro cands
  induction cands with
  | nil =>
    intro i cur hdrop hlt hcur heq hmin hstrict
    have hlen : regions.length ≤ i := by
      by_contra hcon
      have hlt2 : i < regions.length := by omega
      have := List.drop_eq_getElem_cons (l := regions) (n := i) hlt2
      rw [← hdrop] at this
      exact List.cons_ne_nil _ _ this.symm
    refine ⟨hcur, heq, ?_, hstrict⟩
    intro j hj
    exact hmin j (by omega) hj
  | cons c cands ih =>
    intro i cur hdrop hlt hcur heq hmin hstrict
    have hi : i < regions.length := by
      by_contra hcon
      have : regions.drop i = [] := List.drop_eq_nil_iff.mpr (by omega)
      rw [this] at hdrop
      exact absurd hdrop (by simp)
    have hcons := List.drop_eq_getElem_cons (l := regions) (n := i) hi
    rw [hcons] at hdrop
    obtain ⟨hc, hcands⟩ := List.cons.inj hdrop
    have hstep : nearest_from cmp cur (c :: cands) i =
        nearest_from cmp
          (if distance c cmp < distance cur.1 cmp then (c, i) else cur)
          cands (i + 1) := rfl
    rw [hstep]
    by_cases hdist : distance c cmp < distance cur.1 cmp
    · rw [if_pos hdist]
      refine ih (i + 1) (c, i) hcands (by omega) (by omega) ?_ ?_ ?_
      · show c = regions.getD i dfl
        rw [getD_eq_of_lt regions i hi, hc]
      · intro j hj hjlen
        rcases Nat.lt_or_ge j i with hji | hji
        · exact le_of_lt (lt_of_lt_of_le hdist (hmin j hji hjlen))
        · have : j = i := by omega
          subst this
          rw [getD_eq_of_lt regions j hi, ← hc]
      · intro j hj
        exact lt_of_lt_of_le hdist (hmin j (by omega) (by omega))
    · rw [if_neg hdist]
      refine ih (i + 1) cur hcands (by omega) hcur heq ?_ hstrict
      intro j hj hjlen
      rcases Nat.lt_or_ge j i with hji | hji
      · exact hmin j hji hjlen
      · have : j = i := by omega
        subst this
        rw [getD_eq_of_lt regions j hi, ← hc]
        omega


/-! ### Cluster coverage of a free-space map

`covered rs c` says cluster `c` lies in some region of the map — the
semantic content of the map that the allocation theorems track. -/

def region_covers (r : free_region) (c : Nat) : Prop :=
  r.start ≤ c ∧ c < r.start + r.length

def covered (rs : List free_region) (c : Nat) : Prop :=
  ∃ r ∈ rs, region_covers r c

/-- Regions are listed left to right without overlap: each ends at or
before the next begins. -/
def regions_separated (rs : List free_region) : Prop :=
  List.Pairwise (fun a b => a.start + a.length ≤ b.start) rs

instance (rs : List free_region) : Decidable (regions_separated rs) :=
  inferInstanceAs (Decidable
    (List.Pairwise (fun (a b : free_region) => a.start + a.length ≤ b.start) rs))

theorem covered_iff_index (rs : List free_region) (c : Nat) :
    covered rs c ↔ ∃ j, ∃ hj : j < rs.length, region_covers rs[j] c := by
  constructor
  · rintro ⟨r, hr, hc⟩
    obtain ⟨j, hj, hej⟩ := List.mem_iff_getElem.mp hr
    exact ⟨j, hj, by rw [hej]; exact hc⟩
  · rintro ⟨j, hj, hc⟩
    exact ⟨rs[j], List.getElem_mem hj, hc⟩

/-- Replacing the region at position `idx` of a separated map by a
sublist `parts` covering exactly that region minus the cluster `x`
removes exactly `x` from the covered set. -/
theorem covered_replace (rs : List free_region) (idx : Nat)
    (hidx : idx < rs.length) (parts : List free_region) (x : Nat)
    (hsorted : regions_separated rs)
    (hcovx : region_covers rs[idx] x)
    (hparts : ∀ c, covered parts c ↔ (region_covers rs[idx] c ∧ c ≠ x)) :
    ∀ c, covered (rs.take idx ++ parts ++ rs.drop (idx + 1)) c ↔
      (covered rs c ∧ c ≠ x) := by
  have hpair := (List.pairwise_iff_getElem).mp hsorted
  intro c
  constructor
  · rintro ⟨r, hr, hc⟩
    rcases List.mem_append.mp hr with hr2 | hdrop2
    · rcases List.mem_append.mp hr2 with htake | hpart
      · -- r is a region strictly left of idx
        obtain ⟨j, hj, hej⟩ := List.mem_iff_getElem.mp htake
        have hjlt : j < idx := by
          have := hj
          simp [List.length_take] at this
          omega
        have hjlen : j < rs.length := by omega
        have hget : (rs.take idx)[j] = rs[j] := List.getElem_take ..
        rw [hget] at hej
        have hcj : region_covers rs[j] c := by rw [hej]; exact hc
        refine ⟨⟨rs[j], List.getElem_mem hjlen, hcj⟩, ?_⟩
        intro hcx
        subst hcx
        have hsep := hpair j idx hjlen hidx hjlt
        rcases hcj with ⟨h1, h2⟩
        rcases hcovx with ⟨h3, h4⟩
        omega
      · -- r comes from the replacement parts
        have : covered parts c := ⟨r, hpart, hc⟩
        have h2 := (hparts c).mp this
        exact ⟨⟨rs[idx], List.getElem_mem hidx, h2.1⟩, h2.2⟩
    · -- r is a region strictly right of idx
      obtain ⟨j, hj, hej⟩ := List.mem_iff_getElem.mp hdrop2
      have hjlen2 : idx + 1 + j < rs.length := by
        have := hj
        simp [List.length_drop] at this
        omega
      have hget : (rs.drop (idx + 1))[j] = rs[idx + 1 + j] :=
        List.getElem_drop ..
      rw [hget] at hej
      have hcj : region_covers rs[idx + 1 + j] c := by rw [hej]; exact hc
      refine ⟨⟨rs[idx + 1 + j], List.getElem_mem hjlen2, hcj⟩, ?_⟩
      intro hcx
      subst hcx
      have hsep := hpair idx (idx + 1 + j) hidx hjlen2 (by omega)
      rcases hcj with ⟨h1, h2⟩
      rcases hcovx with ⟨h3, h4⟩
      omega
  · rintro ⟨hcov, hcx⟩
    obtain ⟨j, hj, hcj⟩ := (covered_iff_index rs c).mp hcov
    rcases Nat.lt_trichotomy j idx with hji | hji
    · refine ⟨rs[j], ?_, hcj⟩
      apply List.mem_append.mpr
      left
      apply List.mem_append.mpr
      left
      have hjt : j < (rs.take idx).length := by
        simp [List.length_take]
        omega
      have : (rs.take idx)[j] = rs[j] := List.getElem_take ..
      exact this ▸ List.getElem_mem hjt
    · rcases hji with hji | hji
      · subst hji
        obtain ⟨r, hrmem, hrc⟩ := (hparts c).mpr ⟨hcj, hcx⟩
        exact ⟨r, by simp [hrmem], hrc⟩
      · obtain ⟨j2, rfl⟩ : ∃ j2, j = idx + 1 + j2 := ⟨j - (idx + 1), by omega⟩
        refine ⟨rs[idx + 1 + j2], ?_, hcj⟩
        apply List.mem_append.mpr
        right
        have hjd : j2 < (rs.drop (idx + 1)).length := by
          simp [List.length_drop]
          omega
        have hg : (rs.drop (idx + 1))[j2] = rs[idx + 1 + j2] :=
          List.getElem_drop ..
        exact hg ▸ List.getElem_mem hjd

/-- The region index chosen by the `nearest` traversal is the first one
at minimal distance to `near`. -/
theorem get_nearest_idx_spec (regions : List free_region) (near : Nat)
    (hne : regions ≠ []) :
    get_nearest_idx regions near < regions.length ∧
    (∀ j, j < regions.length →
      distance (regions.getD (get_nearest_idx regions near) dfl) near ≤
        distance (regions.getD j dfl) near) ∧
    (∀ j, j < get_nearest_idx regions near →
      distance (regions.getD (get_nearest_idx regions near) dfl) near <
        distance (regions.getD j dfl) near) := by
  cases regions with
  | nil => exact absurd rfl hne
  | cons r rest =>
    have hmaster := nearest_from_spec near (r :: rest) rest 1 (r, 0)
      rfl (by omega) (by simp) (by simp [dfl]) ?_ ?_
    · have hidx : get_nearest_idx (r :: rest) near =
          (nearest_from near (r, 0) rest 1).2 := rfl
      obtain ⟨h1, h2, h3, h4⟩ := hmaster
      rw [hidx]
      refine ⟨h1, ?_, ?_⟩
      · intro j hj
        rw [← h2]
        exact h3 j hj
      · intro j hj
        rw [← h2]
        exact h4 j hj
    · intro j hj hjlen
      have : j = 0 := by omega
      subst this
      simp
    · intro j hj
      omega

/-- The shape of `get_nearest_free`'s result on a non-empty map. -/
theorem get_nearest_free_eq (regions : List free_region) (near : Nat)
    (hne : regions ≠ []) :
    get_nearest_free regions near =
      (let idx := get_nearest_idx regions near
       let reg := regions.getD idx dfl
       ((if near < reg.start then reg.start
         else reg.start + reg.length - 1),
        if reg.length - 1 = 0 then regions.eraseIdx idx
        else regions.set idx
          (if near < reg.start then
            { start := reg.start + 1, length := reg.length - 1 }
          else { reg with length := reg.length - 1 }))) := by
  cases regions with
  | nil => exact absurd rfl hne
  | cons r rest =>
    show (if near < ((r :: rest).getD (get_nearest_idx (r :: rest) near)
        { start := 0, length := 0 }).start then _ else _) = _
    by_cases h : near < ((r :: rest).getD (get_nearest_idx (r :: rest) near)
        dfl).start
    · simp only [get_nearest_free, dfl] at h ⊢
      simp only [if_pos h]
    · simp only [get_nearest_free, dfl] at h ⊢
      simp only [if_neg h]

theorem put_fat_entry_self (dev : Nat → Nat) (e v : Nat) :
    put_fat_entry dev e v e = (dev e &&& 0xF0000000) ||| (v &&& 0x0FFFFFFF) := by
  simp [put_fat_entry]

theorem put_fat_entry_other (dev : Nat → Nat) (e v c : Nat) (h : c ≠ e) :
    put_fat_entry dev e v c = dev c := by
  simp [put_fat_entry, h]

theorem covered_singleton (v : free_region) (c : Nat) :
    covered [v] c ↔ region_covers v c := by
  simp [covered]

theorem covered_nil (c : Nat) : ¬ covered [] c := by
  simp [covered]

theorem pow_two_32 : (2 : Nat) ^ 32 = 4294967296 := by norm_num

theorem pow_two_28 : (2 : Nat) ^ 28 = 268435456 := by norm_num

/-! ### The in-memory map's header node (claim C5)

`init_clusters_map` installs a permanent header node at the front of
`free_map` (`free_map = current`) and zeroes only its `length` field;
its `start` field is never written, so it holds whatever the fresh
`safe_malloc` block contained.  `traverse_map` starts with
`current = &free_map` and iterates `candidate` from `&free_map` as
well, so the header node is both the initial `current` and a visited
candidate of every search.  The `largest` callback compares lengths
only, and the header's length is deterministically 0, so it can never
win that search while a real region exists; but the `nearest` callback
feeds the header's indeterminate `start` into `distance`, so the
header can win the nearest search and be handed to `get_nearest_free`.
The definitions below model the traversal over the full node list;
`hstart` is the residual value of the header's uninitialized `start`
field. -/

/-- The in-memory free-space list as `traverse_map` walks it: the
permanent header node (length 0, residual start `hstart`) followed by
the built regions. -/
def map_nodes (hstart : Nat) (regions : List free_region) :
    List free_region :=
  { start := hstart, length := 0 } :: regions

/-- The index (into `map_nodes hstart regions`) of the node chosen by
`traverse_map (&nearest, near)` on the full list: `current` starts at
the header node, and the header's comparison against itself is a
no-op, so the fold runs over the built regions with the header as the
initial best. -/
def traverse_nearest (hstart : Nat) (regions : List free_region)
    (near : Nat) : Nat :=
  (nearest_from near ({ start := hstart, length := 0 }, 0) regions 1).2

/-- `get_nearest_free` as executed on the full in-memory list, header
node included, with the source's `unsigned` arithmetic spelt out:
`(*reg)->length -= 1` on a zero-length node wraps to `2 ^ 32 - 1` (so
the `length == 0` unlink test fails and the node stays linked), and
`(*reg)->start + (*reg)->length - 1` wraps likewise. -/
def get_nearest_free_map (hstart : Nat) (regions : List free_region)
    (near : Nat) : Nat × List free_region :=
  let nodes := map_nodes hstart regions
  let idx := traverse_nearest hstart regions near
  let reg := nodes.getD idx { start := 0, length := 0 }
  let len1 := (reg.length + 2 ^ 32 - 1) % 2 ^ 32
  if near < reg.start then
    (reg.start,
      if len1 = 0 then nodes.eraseIdx idx
      else nodes.set idx { start := (reg.start + 1) % 2 ^ 32, length := len1 })
  else
    ((reg.start + reg.length + 2 ^ 32 - 1) % 2 ^ 32,
      if len1 = 0 then nodes.eraseIdx idx
      else nodes.set idx { reg with length := len1 })

/-- `new_cluster` over the full in-memory list: pick a cluster via
`get_nearest_free_map`, store the end-of-chain sentinel in its FAT
cell, and point `near`'s cell at it. -/
def new_cluster_map (dev : Nat → Nat) (hstart : Nat)
    (regions : List free_region) (near : Nat) :
    Nat × List free_region × (Nat → Nat) :=
  let res := get_nearest_free_map hstart regions near
  let dev1 := put_fat_entry dev res.1 END_CLUSTER_MARK
  let dev2 := put_fat_entry dev1 near res.1
  (res.1, res.2, dev2)

/-- Claim C5: the nearest-cluster policy fails on the in-memory map the
code actually traverses.  With residual header start 0 (a zero-filled
fresh allocation), built regions `[(1000, 10)]` and `near = 5`, every
hypothesis the policy presumes holds of the built regions (non-empty,
positive length, `near` outside, bounded), yet: the only real region is
at distance 995 while the garbage header is at distance
`5 - (0 + 0) = 5`, so the header wins the search; `get_nearest_free`
then computes `alloc = 0 + 0 - 1`, wrapping to `2 ^ 32 - 1`, decrements
the header's length from 0 to `2 ^ 32 - 1` — leaving a bogus huge
"free region" linked at the front while the real region is untouched —
and `new_cluster` marks FAT cell `2 ^ 32 - 1` end-of-chain and points
cell 5 at `0x0FFFFFFF`, the wrapped index masked to 28 bits.  The
allocated "cluster" lies in no free region, so the chosen region does
not minimise the claimed distance and the shrink-by-one/unlink
behaviour fails as well. -/
theorem c5_new_cluster_allocates_from_garbage_header :
    distance { start := 0, length := 0 } 5 = 5 ∧
    distance { start := 1000, length := 10 } 5 = 995 ∧
    traverse_nearest 0 [{ start := 1000, length := 10 }] 5 = 0 ∧
    (new_cluster_map (fun _ => 0) 0 [{ start := 1000, length := 10 }] 5).1 =
      2 ^ 32 - 1 ∧
    (new_cluster_map (fun _ => 0) 0 [{ start := 1000, length := 10 }] 5).2.1 =
      [{ start := 0, length := 2 ^ 32 - 1 }, { start := 1000, length := 10 }] ∧
    (new_cluster_map (fun _ => 0) 0 [{ start := 1000, length := 10 }] 5).2.2 5 =
      0x0FFFFFFF := by
  refine ⟨by decide, by decide, by decide, by decide, by decide, by decide⟩

/-! ## Correctness of the largest-region selection (claims C4) -/

theorem covered_pair (a b : free_region) (c : Nat) :
    covered [a, b] c ↔ (region_covers a c ∨ region_covers b c) := by
  simp [covered]

/-- Loop invariant of `traverse_map` with the `largest` callback: the
fold returns the position of the first region of maximal length. -/
theorem largest_from_spec (regions : List free_region) :
    ∀ (cands : List free_region) (i : Nat) (cur : free_region × Nat),
      cands = regions.drop i →
      cur.2 < i →
      cur.2 < regions.length →
      cur.1 = regions.getD cur.2 dfl →
      (∀ j, j < i → j < regions.length →
        (regions.getD j dfl).length ≤ cur.1.length) →
      (∀ j, j < cur.2 → (regions.getD j dfl).length < cur.1.length) →
      (largest_from cur cands i).2 < regions.length ∧
      (largest_from cur cands i).1 =
        regions.getD (largest_from cur cands i).2 dfl ∧
      (∀ j, j < regions.length →
        (regions.getD j dfl).length ≤ (largest_from cur cands i).1.length) ∧
      (∀ j, j < (largest_from cur cands i).2 →
        (regions.getD j dfl).length < (largest_from cur cands i).1.length) := by
  intro cands
  induction cands with
  | nil =>
    intro i cur hdrop hlt hcur heq hmax hstrict
    have hlen : regions.length ≤ i := by
      by_contra hcon
      have hlt2 : i < regions.length := by omega
      have := List.drop_eq_getElem_cons (l := regions) (n := i) hlt2
      rw [← hdrop] at this
      exact List.cons_ne_nil _ _ this.symm
    refine ⟨hcur, heq, ?_, hstrict⟩
    intro j hj
    exact hmax j (by omega) hj
  | cons c cands ih =>
    intro i cur hdrop hlt hcur heq hmax hstrict
    have hi : i < regions.length := by
      by_contra hcon
      have : regions.drop i = [] := List.drop_eq_nil_iff.mpr (by omega)
      rw [this] at hdrop
      exact absurd hdrop (by simp)
    have hcons := List.drop_eq_getElem_cons (l := regions) (n := i) hi
    rw [hcons] at hdrop
    obtain ⟨hc, hcands⟩ := List.cons.inj hdrop
    have hstep : largest_from cur (c :: cands) i =
        largest_from (if cur.1.length < c.length then (c, i) else cur)
          cands (i + 1) := rfl
    rw [hstep]
    by_cases hlng : cur.1.length < c.length
    · rw [if_pos hlng]
      refine ih (i + 1) (c, i) hcands (by omega) (by omega) ?_ ?_ ?_
      · show c = regions.getD i dfl
        rw [getD_eq_of_lt regions i hi, hc]
      · intro j hj hjlen
        rcases Nat.lt_or_ge j i with hji | hji
        · exact le_of_lt (lt_of_le_of_lt (hmax j hji hjlen) hlng)
        · have : j = i := by omega
          subst this
          rw [getD_eq_of_lt regions j hi, ← hc]
      · intro j hj
        exact lt_of_le_of_lt (hmax j (by omega) (by omega)) hlng
    · rw [if_neg hlng]
      refine ih (i + 1) cur hcands (by omega) hcur heq ?_ hstrict
      intro j hj hjlen
      rcases Nat.lt_or_ge j i with hji | hji
      · exact hmax j hji hjlen
      · have : j = i := by omega
        subst this
        rw [getD_eq_of_lt regions j hi, ← hc]
        omega

/-- `get_largest_region` returns the first region of maximal length
together with its index. -/
theorem get_largest_region_spec (regions : List free_region)
    (hne : regions ≠ []) :
    (get_largest_region regions).2 < regions.length ∧
    (get_largest_region regions).1 =
      regions.getD (get_largest_region regions).2 dfl ∧
    (∀ j, j < regions.length →
      (regions.getD j dfl).length ≤ (get_largest_region regions).1.length) ∧
    (∀ j, j < (get_largest_region regions).2 →
      (regions.getD j dfl).length < (get_largest_region regions).1.length) := by
  cases regions with
  | nil => exact absurd rfl hne
  | cons r rest =>
    have hmaster := largest_from_spec (r :: rest) rest 1 (r, 0)
      rfl (by omega) (by simp) (by simp [dfl]) ?_ ?_
    · exact hmaster
    · intro j hj hjlen
      have : j = 0 := by omega
      subst this
      simp
    · intro j hj
      omega

/-- Claim C4: `fat_create` allocates, for the new node, exactly the
cluster at the midpoint of the (first) largest region of the free-space
map, and replaces that region by the sub-regions on either side of the
midpoint, so the free clusters afterwards are the previous ones minus
the midpoint. -/
theorem c4_fat_create_allocates_midpoint_of_largest
    (regions : List free_region) (hne : regions ≠ [])
    (hlen : ∀ r ∈ regions, 0 < r.length)
    (hsorted : regions_separated regions) :
    ((get_largest_region regions).2 < regions.length ∧
     (∀ j, j < regions.length →
       (regions.getD j dfl).length ≤ (get_largest_region regions).1.length) ∧
     (∀ j, j < (get_largest_region regions).2 →
       (regions.getD j dfl).length < (get_largest_region regions).1.length)) ∧
    (fat_create regions).1 =
      (get_largest_region regions).1.start +
        (get_largest_region regions).1.length / 2 ∧
    (∀ c, covered (fat_create regions).2 c ↔
      (covered regions c ∧ c ≠ (fat_create regions).1)) := by
  obtain ⟨hidx, hreg, hmax, hstrict⟩ := get_largest_region_spec regions hne
  have hreg_len : 0 < (get_largest_region regions).1.length := by
    rw [hreg]
    rw [getD_eq_of_lt regions _ hidx]
    exact hlen _ (List.getElem_mem hidx)
  obtain ⟨r, rest, hrr⟩ : ∃ r rest, regions = r :: rest := by
    cases regions with
    | nil => exact absurd rfl hne
    | cons r rest => exact ⟨r, rest, rfl⟩
  have hnode : fat_create regions =
      ((get_largest_region regions).1.start +
        (get_largest_region regions).1.length / 2,
       regions.take (get_largest_region regions).2 ++
         ((if (get_largest_region regions).1.start +
              (get_largest_region regions).1.length / 2 -
              (get_largest_region regions).1.start = 0 then []
           else [{ start := (get_largest_region regions).1.start,
                   length := (get_largest_region regions).1.start +
                     (get_largest_region regions).1.length / 2 -
                     (get_largest_region regions).1.start }]) ++
          (if (get_largest_region regions).1.start +
              (get_largest_region regions).1.length -
              ((get_largest_region regions).1.start +
                (get_largest_region regions).1.length / 2 + 1) = 0 then []
           else [{ start := (get_largest_region regions).1.start +
                     (get_largest_region regions).1.length / 2 + 1,
                   length := (get_largest_region regions).1.start +
                     (get_largest_region regions).1.length -
                     ((get_largest_region regions).1.start +
                       (get_largest_region regions).1.length / 2 + 1) }])) ++
         regions.drop ((get_largest_region regions).2 + 1)) := by
    subst hrr
    rfl
  refine ⟨⟨hidx, hmax, hstrict⟩, ?_, ?_⟩
  · rw [hnode]
  · intro c
    rw [hnode]
    have hcovx : region_covers regions[(get_largest_region regions).2]
        ((get_largest_region regions).1.start +
          (get_largest_region regions).1.length / 2) := by
      rw [← getD_eq_of_lt regions _ hidx, ← hreg]
      constructor
      · omega
      · have : (get_largest_region regions).1.length / 2 <
            (get_largest_region regions).1.length := by omega
        omega
    have := covered_replace regions (get_largest_region regions).2 hidx
      ((if (get_largest_region regions).1.start +
            (get_largest_region regions).1.length / 2 -
            (get_largest_region regions).1.start = 0 then []
        else [{ start := (get_largest_region regions).1.start,
                length := (get_largest_region regions).1.start +
                  (get_largest_region regions).1.length / 2 -
                  (get_largest_region regions).1.start }]) ++
       (if (get_largest_region regions).1.start +
            (get_largest_region regions).1.length -
            ((get_largest_region regions).1.start +
              (get_largest_region regions).1.length / 2 + 1) = 0 then []
        else [{ start := (get_largest_region regions).1.start +
                  (get_largest_region regions).1.length / 2 + 1,
                length := (get_largest_region regions).1.start +
                  (get_largest_region regions).1.length -
                  ((get_largest_region regions).1.start +
                    (get_largest_region regions).1.length / 2 + 1) }]))
      ((get_largest_region regions).1.start +
        (get_largest_region regions).1.length / 2)
      hsorted hcovx ?_ c
    · exact this
    · intro c2
      rw [← getD_eq_of_lt regions _ hidx, ← hreg]
      by_cases hleft : (get_largest_region regions).1.start +
          (get_largest_region regions).1.length / 2 -
          (get_largest_region regions).1.start = 0
      · by_cases hright : (get_largest_region regions).1.start +
            (get_largest_region regions).1.length -
            ((get_largest_region regions).1.start +
              (get_largest_region regions).1.length / 2 + 1) = 0
        · rw [if_pos hleft, if_pos hright]
          simp only [List.nil_append]
          constructor
          · intro hc2
            exact absurd hc2 (covered_nil c2)
          · rintro ⟨⟨h1, h2⟩, hne2⟩
            exfalso
            omega
        · rw [if_pos hleft, if_neg hright]
          simp only [List.nil_append, covered_singleton]
          simp only [region_covers]
          omega
      · by_cases hright : (get_largest_region regions).1.start +
            (get_largest_region regions).1.length -
            ((get_largest_region regions).1.start +
              (get_largest_region regions).1.length / 2 + 1) = 0
        · rw [if_neg hleft, if_pos hright]
          simp only [List.append_nil, covered_singleton]
          simp only [region_covers]
          omega
        · rw [if_neg hleft, if_neg hright]
          simp only [List.singleton_append, covered_pair]
          simp only [region_covers]
          omega

/-- Witness for C4: on the map `[(2,2), (10,7), (30,3)]` the largest
region is `(10,7)`; its midpoint `10 + 7/2 = 13` is allocated and the
region splits into `(10,3)` and `(14,3)`. -/
theorem c4_fat_create_allocates_midpoint_of_largest_witness :
    (fat_create [{ start := 2, length := 2 }, { start := 10, length := 7 },
      { start := 30, length := 3 }]).1 = 13 ∧
    (fat_create [{ start := 2, length := 2 }, { start := 10, length := 7 },
      { start := 30, length := 3 }]).2 =
      [{ start := 2, length := 2 }, { start := 10, length := 3 },
       { start := 14, length := 3 }, { start := 30, length := 3 }] ∧
    ¬ covered (fat_create [{ start := 2, length := 2 },
      { start := 10, length := 7 }, { start := 30, length := 3 }]).2 13 := by
  have h := c4_fat_create_allocates_midpoint_of_largest
    [{ start := 2, length := 2 }, { start := 10, length := 7 },
     { start := 30, length := 3 }]
    (by decide) (by decide) (by decide)
  refine ⟨by decide, by decide, ?_⟩
  intro hcov
  have h13 : (fat_create [{ start := 2, length := 2 },
      { start := 10, length := 7 }, { start := 30, length := 3 }]).1 = 13 := by
    decide
  have := (h.2.2 13).mp hcov
  rw [h13] at this
  exact this.2 rfl

/-! ## File handles and I/O (`fileio.c`)

`fat_file_t` carries the materialised cluster chain, a cursor
(`current_cluster`, a pointer into the chain — modelled as an index,
with index ≥ chain length standing for the null pointer), the file size
and the current byte offset.  The offset is an `off_t`; every write to it
in the source stores a validated non-negative value, so it is a `Nat`
here, while seek targets that may be negative are `Int`. -/

structure fat_file where
  clusters : List Nat
  current_cluster : Nat
  size : Nat
  offset : Nat
deriving Repr, DecidableEq

/-- `-EINVAL` is returned for bad seeks; 22 on Linux. -/
def EINVAL : Int := 22

/-- `EOF` from stdio. -/
def EOF : Int := -1

/-- Global postcondition state threaded through the allocator-touching
operations: the device FAT and the free-space map. -/
structure fs_state where
  fat : Nat → Nat
  free_map : List free_region

/-- `set_offset`: accept targets in `[0, size)`, else `-EINVAL`. -/
def set_offset (fd : fat_file) (newoff : Int) : Int × fat_file :=
  if 0 ≤ newoff ∧ newoff < (fd.size : Int) then
    (newoff, { fd with offset := newoff.toNat })
  else
    (-EINVAL, fd)

/-- `update_current_cluster`: walk the chain to the cluster containing
the current offset; the walk stops early at the end of the chain (null
cursor, represented by the chain length). -/
def update_current_cluster (cs : Nat) (fd : fat_file) : fat_file :=
  { fd with current_cluster := min (fd.offset / cs) fd.clusters.length }

/-- `fat_seek`: `SEEK_SET`/`SEEK_CUR`/`SEEK_END` are 0/1/2; any other
`whence` returns `-EINVAL` without touching the handle. -/
def fat_seek (cs : Nat) (fd : fat_file) (offset : Int) (whence : Nat) :
    Int × fat_file :=
  match whence with
  | 0 =>
    let (r, fd1) := set_offset fd offset
    (r, update_current_cluster cs fd1)
  | 1 =>
    let (r, fd1) := set_offset fd ((fd.offset : Int) + offset)
    (r, update_current_cluster cs fd1)
  | 2 =>
    let (r, fd1) := set_offset fd (((fd.size : Int) - 1) + offset)
    (r, update_current_cluster cs fd1)
  | _ => (-EINVAL, fd)

/-- `count_clusters`: clusters needed for `nbytes` bytes (rounding a
partial cluster up). -/
def count_clusters (cs : Nat) (nbytes : Nat) : Nat :=
  nbytes / cs + (if nbytes % cs ≠ 0 then 1 else 0)

/-- The transfer loop of `do_io`: while bytes remain and the cluster
pointer is non-null, transfer `block` bytes, advance the offset, compute
the next block as `min remaining cluster_size`, and step to the next
cluster.  Each iteration moves at least one byte, so fuel `nbytes + 1`
is never exhausted.  Returns (bytes transferred, final offset). -/
def do_io_loop (cs : Nat) :
    Nat → Nat → Nat → Nat → List Nat → Nat → Nat × Nat
  | 0, _, offset, _, _, total => (total, offset)
  | fuel + 1, nbytes, offset, block, rest, total =>
    if nbytes > 0 ∧ rest ≠ [] then
      do_io_loop cs fuel (nbytes - block) (offset + block)
        (min (nbytes - block) cs) rest.tail (total + block)
    else
      (total, offset)

/-- `do_io`: transfer up to `nbytes` bytes starting at the handle's
cursor and offset; the first block is the remainder of the current
cluster.  Afterwards the cursor is re-derived from the offset. -/
def do_io (cs : Nat) (fd : fat_file) (nbytes : Nat) : Nat × fat_file :=
  let rest := fd.clusters.drop fd.current_cluster
  let block := min nbytes (cs - fd.offset % cs)
  let res := do_io_loop cs (nbytes + 1) nbytes fd.offset block rest 0
  (res.1, update_current_cluster cs { fd with offset := res.2 })

/-- `fat_read` is `do_io` with `safe_read`. -/
def fat_read (cs : Nat) (fd : fat_file) (nbytes : Nat) : Nat × fat_file :=
  do_io cs fd nbytes

/-- Modelled from the spec: `alloc_clusters` (the spec's
`extend-by-k-clusters`, §4.4) is called by `fat_write` but its body is
absent from the sources: "repeatedly invokes `new-cluster(tail)` and
appends the returned index to the chain".  `new_cluster` is the source's
own allocator. -/
def alloc_clusters (st : fs_state) (fd : fat_file) :
    Nat → fs_state × fat_file
  | 0 => (st, fd)
  | k + 1 =>
    let tail := fd.clusters.getLastD 0
    let res := new_cluster st.fat st.free_map tail
    alloc_clusters { fat := res.2.2, free_map := res.2.1 }
      { fd with clusters := fd.clusters ++ [res.1] } k

/-- `fat_write`: when `offset + nbytes` reaches past the allocated
extent (`count_clusters(size) * cluster_size`), allocate
`count_clusters(shortfall)` fresh clusters, then transfer.  Neither
`fat_write` nor `do_io` updates the `size` field.  Returns the new
global state, the new handle and the byte count transferred. -/
def fat_write (cs : Nat) (st : fs_state) (fd : fat_file) (nbytes : Nat) :
    fs_state × fat_file × Nat :=
  let nr_clusters := count_clusters cs fd.size
  let stfd :=
    if fd.offset + nbytes ≥ nr_clusters * cs then
      alloc_clusters st fd
        (count_clusters cs (fd.offset + nbytes - nr_clusters * cs))
    else (st, fd)
  let res := do_io cs stfd.2 nbytes
  (stfd.1, res.2, res.1)

/-- The absolute target that `fat_seek` resolves `(offset, whence)` to:
`SEEK_SET` (0) gives `offset`, `SEEK_CUR` (1) gives `fd.offset + offset`,
`SEEK_END` (2) gives `(fd.size - 1) + offset`. -/
def seek_target (fd : fat_file) (offset : Int) (whence : Nat) : Int :=
  if whence = 0 then offset
  else if whence = 1 then (fd.offset : Int) + offset
  else ((fd.size : Int) - 1) + offset

/-- Claim C6: `fat_seek` resolves `SEEK_SET` to `offset`, `SEEK_CUR` to
`fd.offset + offset` and `SEEK_END` to `(fd.size - 1) + offset`
(`seek_target`); it returns `-EINVAL` exactly when `whence` is
unrecognised or the resolved target is outside `[0, size)`; otherwise it
stores the target in the handle and returns it.  In particular, for a
file of non-zero size, `SEEK_END` with offset 0 positions at
`size - 1`. -/
theorem c6_fat_seek_resolution (cs : Nat) (fd : fat_file) (offset : Int)
    (whence : Nat) :
    (whence ≤ 2 →
      (0 ≤ seek_target fd offset whence ∧
          seek_target fd offset whence < (fd.size : Int) →
        (fat_seek cs fd offset whence).1 = seek_target fd offset whence ∧
        (fat_seek cs fd offset whence).2.offset =
          (seek_target fd offset whence).toNat) ∧
      (¬(0 ≤ seek_target fd offset whence ∧
          seek_target fd offset whence < (fd.size : Int)) →
        (fat_seek cs fd offset whence).1 = -EINVAL ∧
        (fat_seek cs fd offset whence).2.offset = fd.offset)) ∧
    (whence > 2 →
      (fat_seek cs fd offset whence).1 = -EINVAL ∧
      (fat_seek cs fd offset whence).2 = fd) ∧
    (1 ≤ fd.size →
      (fat_seek cs fd 0 2).1 = (fd.size : Int) - 1 ∧
      (fat_seek cs fd 0 2).2.offset = fd.size - 1) := by
  have hend : 1 ≤ fd.size →
      (fat_seek cs fd 0 2).1 = (fd.size : Int) - 1 ∧
      (fat_seek cs fd 0 2).2.offset = fd.size - 1 := by
    intro hsz
    have hfs : fat_seek cs fd 0 2 =
        ((set_offset fd (((fd.size : Int) - 1) + 0)).1,
          update_current_cluster cs
            (set_offset fd (((fd.size : Int) - 1) + 0)).2) := rfl
    rw [hfs, set_offset, if_pos (by constructor <;> omega)]
    constructor
    · simp
    · show (((fd.size : Int) - 1) + 0).toNat = fd.size - 1
      omega
  rcases whence with _ | _ | _ | w
  · -- SEEK_SET
    have htgt : seek_target fd offset 0 = offset := by
      rw [seek_target, if_pos rfl]
    have hfs : fat_seek cs fd offset 0 =
        ((set_offset fd offset).1,
          update_current_cluster cs (set_offset fd offset).2) := rfl
    refine ⟨?_, by omega, hend⟩
    intro hw
    rw [htgt, hfs, set_offset]
    constructor
    · intro hc
      rw [if_pos hc]
      exact ⟨rfl, rfl⟩
    · intro hc
      rw [if_neg hc]
      exact ⟨rfl, rfl⟩
  · -- SEEK_CUR
    have htgt : seek_target fd offset 1 = (fd.offset : Int) + offset := by
      rw [seek_target, if_neg (by omega), if_pos rfl]
    have hfs : fat_seek cs fd offset 1 =
        ((set_offset fd ((fd.offset : Int) + offset)).1,
          update_current_cluster cs
            (set_offset fd ((fd.offset : Int) + offset)).2) := rfl
    refine ⟨?_, by omega, hend⟩
    intro hw
    rw [htgt, hfs, set_offset]
    constructor
    · intro hc
      rw [if_pos hc]
      exact ⟨rfl, rfl⟩
    · intro hc
      rw [if_neg hc]
      exact ⟨rfl, rfl⟩
  · -- SEEK_END
    have htgt : seek_target fd offset 2 = ((fd.size : Int) - 1) + offset := by
      rw [seek_target, if_neg (by omega), if_neg (by omega)]
    have hfs : fat_seek cs fd offset 2 =
        ((set_offset fd (((fd.size : Int) - 1) + offset)).1,
          update_current_cluster cs
            (set_offset fd (((fd.size : Int) - 1) + offset)).2) := rfl
    refine ⟨?_, by omega, hend⟩
    intro hw
    rw [htgt, hfs, set_offset]
    constructor
    · intro hc
      rw [if_pos hc]
      exact ⟨rfl, rfl⟩
    · intro hc
      rw [if_neg hc]
      exact ⟨rfl, rfl⟩
  · -- unrecognised whence
    refine ⟨by omega, ?_, hend⟩
    intro hw
    exact ⟨rfl, rfl⟩

/-- A concrete handle for the C6 witness: size 100, offset 10. -/
def fd_seek_example : fat_file :=
  { clusters := [2], current_cluster := 0, size := 100, offset := 10 }

/-- Witness for C6: on `fd_seek_example` (size 100, offset 10),
`SEEK_CUR` by −5 lands at 5; `SEEK_END` with offset 0 lands at 99;
seeking to 100 or with a bogus `whence` yields `-EINVAL`. -/
theorem c6_fat_seek_resolution_witness :
    (fat_seek 4096 fd_seek_example (-5) 1).1 = 5 ∧
    (fat_seek 4096 fd_seek_example 0 2).1 = 99 ∧
    (fat_seek 4096 fd_seek_example 100 0).1 = -EINVAL ∧
    (fat_seek 4096 fd_seek_example 0 7).1 = -EINVAL := by
  have h1 := c6_fat_seek_resolution 4096 fd_seek_example (-5) 1
  have h2 := c6_fat_seek_resolution 4096 fd_seek_example 0 2
  have h3 := c6_fat_seek_resolution 4096 fd_seek_example 100 0
  have h7 := c6_fat_seek_resolution 4096 fd_seek_example 0 7
  refine ⟨?_, ?_, ?_, ?_⟩
  · have := ((h1.1 (by omega)).1 (by constructor <;> decide)).1
    rw [this]
    decide
  · exact (h2.2.2 (by decide)).1
  · exact ((h3.1 (by omega)).2 (by decide)).1
  · exact (h7.2.1 (by omega)).1



/-! ## Claim C3: `fat_write` allocation and the size field -/

theorem alloc_clusters_length (k : Nat) :
    ∀ (st : fs_state) (fd : fat_file),
      (alloc_clusters st fd k).2.clusters.length = fd.clusters.length + k := by
  induction k with
  | zero => intro st fd; rfl
  | succ k ih =>
    intro st fd
    show (alloc_clusters _ _ k).2.clusters.length = _
    rw [ih]
    simp
    omega

theorem alloc_clusters_size (k : Nat) :
    ∀ (st : fs_state) (fd : fat_file),
      (alloc_clusters st fd k).2.size = fd.size := by
  induction k with
  | zero => intro st fd; rfl
  | succ k ih =>
    intro st fd
    show (alloc_clusters _ _ k).2.size = _
    rw [ih]

theorem do_io_clusters (cs : Nat) (fd : fat_file) (nbytes : Nat) :
    (do_io cs fd nbytes).2.clusters = fd.clusters := rfl

theorem do_io_size (cs : Nat) (fd : fat_file) (nbytes : Nat) :
    (do_io cs fd nbytes).2.size = fd.size := rfl

/-- Counterexample to claim C3 as stated: a handle of size 1 at offset 3
in its single 4096-byte cluster; writing 2 bytes moves the offset to 5,
which exceeds the pre-call size 1, yet the handle's `size` field is
still 1 after `fat_write` — neither `fat_write` nor `do_io` ever stores
to `size`. -/
theorem c3_counterexample_size_not_updated :
    let st : fs_state := { fat := fun _ => 0, free_map := [] }
    let fd : fat_file :=
      { clusters := [2], current_cluster := 0, size := 1, offset := 3 }
    let res := fat_write 4096 st fd 2
    res.2.1.offset = 5 ∧ fd.size < res.2.1.offset ∧ res.2.1.size = 1 ∧
      res.2.1.size ≠ res.2.1.offset := by
  refine ⟨by decide, by decide, by decide, by decide⟩

/-- Claim C3 (amended): under the handle invariant
`chain length = count_clusters(size)`, `fat_write` grows the chain by
exactly `count_clusters(shortfall)` clusters when `offset + nbytes`
exceeds the allocated extent `cluster_count * cluster_size` (where
`shortfall = offset + nbytes - cluster_count * cluster_size`) and by
none otherwise; the handle's `size` field is left unchanged by the
call (the source never updates it after the transfer). -/
theorem c3_fat_write_allocation_and_size (cs : Nat) (st : fs_state)
    (fd : fat_file) (nbytes : Nat)
    (hinv : fd.clusters.length = count_clusters cs fd.size) :
    (fat_write cs st fd nbytes).2.1.clusters.length =
      fd.clusters.length +
        (if fd.clusters.length * cs < fd.offset + nbytes then
          count_clusters cs (fd.offset + nbytes - fd.clusters.length * cs)
         else 0) ∧
    (fat_write cs st fd nbytes).2.1.size = fd.size := by
  have hcount0 : count_clusters cs 0 = 0 := by
    simp [count_clusters]
  by_cases hge : fd.offset + nbytes ≥ count_clusters cs fd.size * cs
  · have hfw : fat_write cs st fd nbytes =
        (let stfd := alloc_clusters st fd
          (count_clusters cs
            (fd.offset + nbytes - count_clusters cs fd.size * cs))
         let res := do_io cs stfd.2 nbytes
         (stfd.1, res.2, res.1)) := by
      rw [fat_write, if_pos hge]
    rw [hfw]
    constructor
    · show (do_io cs _ nbytes).2.clusters.length = _
      rw [do_io_clusters, alloc_clusters_length, hinv]
      rcases Nat.lt_or_ge (count_clusters cs fd.size * cs)
        (fd.offset + nbytes) with hlt | hle
      · rw [if_pos hlt]
      · have h0 : fd.offset + nbytes - count_clusters cs fd.size * cs = 0 := by
          omega
        rw [if_neg (by omega), h0, hcount0]
    · show (do_io cs _ nbytes).2.size = _
      rw [do_io_size, alloc_clusters_size]
  · have hfw : fat_write cs st fd nbytes =
        (let res := do_io cs fd nbytes
         (st, res.2, res.1)) := by
      rw [fat_write, if_neg hge]
    rw [hfw]
    refine ⟨?_, do_io_size cs fd nbytes⟩
    show (do_io cs fd nbytes).2.clusters.length = _
    rw [do_io_clusters]
    rw [if_neg (by rw [hinv]; omega)]
    omega

/-- Handle and state for the C3 witness. -/
def fd_write_example : fat_file :=
  { clusters := [5], current_cluster := 0, size := 4096, offset := 4000 }

def st_write_example : fs_state :=
  { fat := fun _ => 0, free_map := [{ start := 20, length := 2 }] }

/-- Witness for the amended C3: a one-cluster file of size 4096 at
offset 4000; writing 200 bytes overruns the extent by 104 bytes, so
exactly one new cluster is allocated, and the size field stays 4096. -/
theorem c3_fat_write_allocation_and_size_witness :
    (fat_write 4096 st_write_example fd_write_example 200).2.1.clusters.length
      = 2 ∧
    (fat_write 4096 st_write_example fd_write_example 200).2.1.size = 4096 := by
  have h := c3_fat_write_allocation_and_size 4096 st_write_example
    fd_write_example 200 (by decide)
  refine ⟨?_, h.2⟩
  rw [h.1]
  decide

/-! ## `mfatic_truncate` (`mfatic-fuse.c`) — claim C7 -/

/-- Release a list of clusters one by one through `release_cluster`. -/
def release_list (st : fs_state) : List Nat → fs_state
  | [] => st
  | c :: rest =>
    let res := release_cluster st.fat st.free_map c
    release_list { fat := res.2, free_map := res.1 } rest

/-- `mfatic_truncate`, acting on a freshly opened handle (`fat_open`
leaves `offset = 0`): set `size` to the requested length, seek to the
(new) EOF — for length 0 this seek targets −1 and fails, the return
value being ignored — and then either release the clusters after the
cursor (shrink; the cursor's cluster is marked end-of-chain) or append
zero bytes one at a time through `fat_write` (grow).  Returns the new
global state, the handle, and the list of released clusters in release
order.  The source frees the released chain nodes; the model truncates
the chain list accordingly. -/
def mfatic_truncate (cs : Nat) (st : fs_state) (fd : fat_file)
    (length : Nat) : fs_state × fat_file × List Nat :=
  let oldsize := fd.size
  let fd1 := { fd with size := length }
  let fd2 := (fat_seek cs fd1 0 2).2
  if oldsize > length then
    let tail := fd2.clusters.getD fd2.current_cluster 0
    let fat1 := put_fat_entry st.fat tail END_CLUSTER_MARK
    let released := fd2.clusters.drop (fd2.current_cluster + 1)
    let st2 := release_list { fat := fat1, free_map := st.free_map } released
    (st2, { fd2 with clusters := fd2.clusters.take (fd2.current_cluster + 1) },
      released)
  else if oldsize < length then
    let grown := (List.range (length - oldsize)).foldl
      (fun acc _ =>
        let r := fat_write cs acc.1 acc.2 1
        (r.1, r.2.1))
      (st, fd2)
    (grown.1, grown.2, [])
  else
    (st, fd2, [])

theorem release_list_fat_other (l : List Nat) :
    ∀ (st : fs_state) (c : Nat), c ∉ l →
      (release_list st l).fat c = st.fat c := by
  induction l with
  | nil => intro st c hc; rfl
  | cons d rest ih =>
    intro st c hc
    show (release_list _ rest).fat c = _
    rw [ih _ c (by simp at hc; exact hc.2)]
    show put_fat_entry st.fat d 0 c = st.fat c
    exact put_fat_entry_other _ _ _ _ (by simp at hc; exact hc.1)

/-- Counterexample to claim C7 as stated: truncating a two-cluster file
(chain `[2, 3]`, size 5000) to length 0 releases only cluster 3.  With
the new size 0 the internal `fat_seek(fd, 0, SEEK_END)` targets −1 and
fails (its result is ignored), the cursor stays on the first cluster,
which is marked end-of-chain and kept; so not every cluster of the chain
is released, contradicting "truncate to 0 releases every cluster". -/
theorem c7_counterexample_truncate_zero_keeps_first_cluster :
    let st : fs_state := { fat := fun _ => 0, free_map := [] }
    let fd : fat_file :=
      { clusters := [2, 3], current_cluster := 0, size := 5000, offset := 0 }
    let res := mfatic_truncate 4096 st fd 0
    res.2.2 = [3] ∧ 2 ∈ fd.clusters ∧ 2 ∉ res.2.2 ∧ res.2.1.size = 0 ∧
      IS_LAST_CLUSTER (res.1.fat 2) := by
  refine ⟨by decide, by decide, by decide, by decide, by decide⟩

/-- Claim C7 (amended): on a handle fresh from `fat_open`
(`offset = 0`) whose chain holds `size` bytes and repeats no cluster,
truncating to `len < size`:
for `1 ≤ len`, marks the FAT cell of the cluster containing byte
`len − 1` (chain position `(len − 1) / cluster_size`) end-of-chain and
releases exactly the clusters after it, leaving `size = len`;
for `len = 0`, the EOF seek fails and the cursor stays on the *first*
cluster, which is kept and marked end-of-chain while all later clusters
are released — size becomes 0 but the first cluster stays allocated. -/
theorem c7_truncate_shrink_releases_successors (cs : Nat) (st : fs_state)
    (fd : fat_file) (len : Nat)
    (_hcs : 0 < cs)
    (hoff : fd.offset = 0)
    (hshrink : len < fd.size)
    (hchain : fd.size ≤ fd.clusters.length * cs)
    (hnodup : fd.clusters.Nodup) :
    (mfatic_truncate cs st fd len).2.2 =
      fd.clusters.drop ((if len = 0 then 0 else (len - 1) / cs) + 1) ∧
    (mfatic_truncate cs st fd len).2.1.clusters =
      fd.clusters.take ((if len = 0 then 0 else (len - 1) / cs) + 1) ∧
    (mfatic_truncate cs st fd len).2.1.size = len ∧
    IS_LAST_CLUSTER ((mfatic_truncate cs st fd len).1.fat
      (fd.clusters.getD (if len = 0 then 0 else (len - 1) / cs) 0)) := by
  have hlenpos : 0 < fd.clusters.length := by
    by_contra hcon
    have : fd.clusters.length = 0 := by omega
    rw [this] at hchain
    omega
  have htidx : (if len = 0 then 0 else (len - 1) / cs) < fd.clusters.length := by
    by_cases h0 : len = 0
    · rw [if_pos h0]; exact hlenpos
    · rw [if_neg h0]
      have hcomm := Nat.mul_comm cs fd.clusters.length
      exact Nat.div_lt_of_lt_mul (by omega)
  have hfd2 : (fat_seek cs { fd with size := len } 0 2).2 =
      { fd with size := len,
                offset := if len = 0 then 0 else len - 1,
                current_cluster := if len = 0 then 0 else (len - 1) / cs } := by
    by_cases h0 : len = 0
    · subst h0
      have hseek : fat_seek cs { fd with size := 0 } 0 2 =
          ((set_offset { fd with size := 0 } (((0 : Int) - 1) + 0)).1,
            update_current_cluster cs
              (set_offset { fd with size := 0 } (((0 : Int) - 1) + 0)).2) := rfl
      rw [hseek, set_offset, if_neg (by simp)]
      show update_current_cluster cs { fd with size := 0 } = _
      rw [update_current_cluster]
      simp only [if_pos rfl]
      rw [hoff]
      simp [Nat.zero_div]
    · have hseek : fat_seek cs { fd with size := len } 0 2 =
          ((set_offset { fd with size := len } (((len : Int) - 1) + 0)).1,
            update_current_cluster cs
              (set_offset { fd with size := len } (((len : Int) - 1) + 0)).2) := rfl
      rw [hseek, set_offset, if_pos (by dsimp only; constructor <;> omega)]
      show update_current_cluster cs
        { fd with size := len, offset := (((len : Int) - 1) + 0).toNat } = _
      rw [update_current_cluster]
      have hto : (((len : Int) - 1) + 0).toNat = len - 1 := by omega
      simp only [hto, if_neg h0]
      have hmin : min ((len - 1) / cs) fd.clusters.length = (len - 1) / cs := by
        rw [if_neg h0] at htidx
        omega
      rw [hmin]
  have hbranch : mfatic_truncate cs st fd len =
      (release_list
        { fat := put_fat_entry st.fat
            ((fat_seek cs { fd with size := len } 0 2).2.clusters.getD
              (fat_seek cs { fd with size := len } 0 2).2.current_cluster 0)
            END_CLUSTER_MARK,
          free_map := st.free_map }
        ((fat_seek cs { fd with size := len } 0 2).2.clusters.drop
          ((fat_seek cs { fd with size := len } 0 2).2.current_cluster + 1)),
       { (fat_seek cs { fd with size := len } 0 2).2 with
          clusters := (fat_seek cs { fd with size := len } 0 2).2.clusters.take
            ((fat_seek cs { fd with size := len } 0 2).2.current_cluster + 1) },
       (fat_seek cs { fd with size := len } 0 2).2.clusters.drop
         ((fat_seek cs { fd with size := len } 0 2).2.current_cluster + 1)) := by
    simp only [mfatic_truncate]
    rw [if_pos (by omega)]
  rw [hbranch, hfd2]
  refine ⟨rfl, rfl, rfl, ?_⟩
  have htail_notin : fd.clusters.getD
      (if len = 0 then 0 else (len - 1) / cs) 0 ∉
      fd.clusters.drop ((if len = 0 then 0 else (len - 1) / cs) + 1) := by
    rw [getD_nat_eq_of_lt fd.clusters _ 0 htidx]
    intro hmem
    obtain ⟨j, hj, hej⟩ := List.mem_iff_getElem.mp hmem
    have hjlen : (if len = 0 then 0 else (len - 1) / cs) + 1 + j <
        fd.clusters.length := by
      have := hj
      simp [List.length_drop] at this
      omega
    rw [List.getElem_drop] at hej
    have := List.Nodup.getElem_inj_iff hnodup |>.mp hej
    omega
  show IS_LAST_CLUSTER ((release_list _ _).fat _)
  dsimp only
  rw [release_list_fat_other _ _ _ htail_notin]
  show IS_LAST_CLUSTER (put_fat_entry st.fat
    (fd.clusters.getD (if len = 0 then 0 else (len - 1) / cs) 0)
    END_CLUSTER_MARK
    (fd.clusters.getD (if len = 0 then 0 else (len - 1) / cs) 0))
  rw [put_fat_entry_self]
  rw [IS_LAST_CLUSTER, masked_or_and_right _ _ _ _ land_masks_disjoint]
  decide

/-- Handle and state for the C7 witness: chain `[2, 3, 4]`, size 9000. -/
def fd_trunc_example : fat_file :=
  { clusters := [2, 3, 4], current_cluster := 0, size := 9000, offset := 0 }

def st_trunc_example : fs_state :=
  { fat := fun _ => 0, free_map := [] }

/-- Witness for the amended C7: truncating a three-cluster file of size
9000 to 5000 keeps clusters 2 and 3 (byte 4999 lies in chain position
1), releases exactly cluster 4, sets size 5000 and marks cluster 3 (the
new tail) end-of-chain. -/
theorem c7_truncate_shrink_releases_successors_witness :
    (mfatic_truncate 4096 st_trunc_example fd_trunc_example 5000).2.2 = [4] ∧
    (mfatic_truncate 4096 st_trunc_example
      fd_trunc_example 5000).2.1.clusters = [2, 3] ∧
    (mfatic_truncate 4096 st_trunc_example fd_trunc_example 5000).2.1.size =
      5000 ∧
    IS_LAST_CLUSTER
      ((mfatic_truncate 4096 st_trunc_example fd_trunc_example 5000).1.fat 3) := by
  have h := c7_truncate_shrink_releases_successors 4096 st_trunc_example
    fd_trunc_example 5000 (by decide) (by decide) (by decide) (by decide)
    (by decide)
  refine ⟨?_, ?_, h.2.2.1, ?_⟩
  · rw [h.1]
    decide
  · rw [h.2.1]
    decide
  · have h4 := h.2.2.2
    have hcell : fd_trunc_example.clusters.getD
        (if (5000 : Nat) = 0 then 0 else (5000 - 1) / 4096) 0 = 3 := by decide
    rw [hcell] at h4
    exact h4

/-! ## DOS/UNIX time conversion (`dostimes.c`, `fat.h`) — claim C8

The `DATE_*`/`TIME_*` extraction macros are in `fat.h`.  The
`SET_YEAR`/`SET_MONTH`/`SET_DAY`/`SET_HOUR`/`SET_MINUTE`/`SET_SECOND`
macros used by `dos_date`/`dos_time` are absent from the sources; they
are modelled from the spec (§6): time is bits 15–11 hour, 10–5 minute,
4–0 seconds/2; date is bits 15–9 year−1980, 8–5 month, 4–0 day; the
results are `uint16_t`.  Since each macro sets its own disjoint field of
a zero-initialised word, the successive stores are assembled as one
arithmetic expression.  The C loops are translated with an explicit fuel
argument that provably never runs out (`days + 2` iterations bound the
year search, `u + 2` the month search). -/

def is_leap_year (year : Nat) : Bool :=
  year % 4 == 0 && (year % 100 != 0 || year % 400 == 0)

def days_this_month (month year : Nat) : Nat :=
  if month = 4 ∨ month = 6 ∨ month = 9 ∨ month = 11 then 30
  else if month = 2 then (if is_leap_year year then 29 else 28)
  else 31

/-- 366 or 365, the summand of `days_since_epoch`'s loop body. -/
def year_length (year : Nat) : Nat := if is_leap_year year then 366 else 365

/-- `days_since_epoch`: days from 1 Jan 1970 to the start of `year`
(the C loop sums year lengths from `year - 1` down to 1970). -/
def days_since_epoch (year : Nat) : Nat :=
  ((List.range (year - 1970)).map (fun i => year_length (1970 + i))).sum

/-- `days_before`: days from the start of the year to the start of
`month` (the C loop sums the lengths of months `month - 1` down to 1). -/
def days_before (month year : Nat) : Nat :=
  ((List.range (month - 1)).map (fun i => days_this_month (1 + i) year)).sum

def DATE_YEAR (d : Nat) : Nat := ((d &&& 0xFE00) >>> 9) + 1980

def DATE_MONTH (d : Nat) : Nat := (d &&& 0x01E0) >>> 5

def DATE_DAY (d : Nat) : Nat := d &&& 0x001F

def TIME_HOUR (t : Nat) : Nat := (t &&& 0xF800) >>> 11

def TIME_MINUTE (t : Nat) : Nat := (t &&& 0x07E0) >>> 5

def TIME_SECOND (t : Nat) : Nat := (t &&& 0x001F) <<< 1

/-- `unix_time`: days for the date (note `DATE_DAY` is 1-based and is
added without subtracting 1), times 86400, plus the time of day. -/
def unix_time (date time : Nat) : Nat :=
  (days_since_epoch (DATE_YEAR date) +
    days_before (DATE_MONTH date) (DATE_YEAR date) + DATE_DAY date) * 86400 +
  TIME_HOUR time * 3600 + TIME_MINUTE time * 60 + TIME_SECOND time

/-- `dos_time`: split `utime mod 86400` into hour/minute/second and pack
them (SET macros modelled from the spec, seconds stored halved). -/
def dos_time (utime : Nat) : Nat :=
  let u1 := utime % 86400
  let hour := u1 / 3600
  let u2 := u1 % 3600
  let minute := u2 / 60
  let sec := u2 % 60
  (hour % 32) * 2048 + (minute % 64) * 32 + sec / 2

/-- The year-search loop of `dos_date`: step `year` up from 1970 while
`days_since_epoch year ≤ days`; returns the first year whose epoch-day
count exceeds `days`. -/
def year_loop : Nat → Nat → Nat → Nat
  | 0, year, _ => year
  | fuel + 1, year, days =>
    if days_since_epoch year ≤ days then year_loop fuel (year + 1) days
    else year

/-- The month-search loop of `dos_date`.  Note it receives the year
*after* the year loop overshot, i.e. the stored year plus one — exactly
as the C passes its loop variable `year`. -/
def month_loop (year : Nat) : Nat → Nat → Nat → Nat → Nat × Nat
  | 0, month, _, u => (month, u)
  | fuel + 1, month, days, u =>
    if days < u then
      month_loop year fuel (month + 1) (days_this_month month year) (u - days)
    else (month, u)

/-- `dos_date`: find the year, subtract its epoch-day count, find month
and day, and pack `(year - 1) - 1980`, `month - 1` and the day remainder
(SET macros modelled from the spec). -/
def dos_date (utime : Nat) : Nat :=
  let days := utime / 86400
  let year := year_loop (days + 2) 1970 days
  let u1 := days - days_since_epoch (year - 1)
  let mres := month_loop year (u1 + 2) 1 0 u1
  (((year - 1) - 1980) % 128) * 512 + ((mres.1 - 1) % 16) * 32 + mres.2 % 32

/-- Claim C8 fails on the code: the DOS date 12385 = 1 March 2004 (year
field 24, month 3, day 1 — a valid DOS date, with time 0) does not
round-trip: `dos_date (unix_time 12385 0) = 12386`, i.e. 2 March 2004.
(`dos_date`'s month loop measures February with the year *after* the
stored one — `days_this_month (month++, year)` where `year` has already
overshot — so in a leap year every date from 1 March on shifts by one
day; 31 December of any year rolls over to `(year+1, month 0, day 0)`,
as the second evaluation shows for 31 December 1999, 10143 ↦ 10240.)
The time field itself does round-trip at this input. -/
theorem c8_dos_roundtrip_fails_mar1_2004 :
    DATE_YEAR 12385 = 2004 ∧ DATE_MONTH 12385 = 3 ∧ DATE_DAY 12385 = 1 ∧
    DATE_DAY 12385 ≤ days_this_month (DATE_MONTH 12385) (DATE_YEAR 12385) ∧
    dos_date (unix_time 12385 0) = 12386 ∧
    dos_date (unix_time 12385 0) ≠ 12385 ∧
    dos_time (unix_time 12385 0) = 0 ∧
    dos_date (unix_time 10143 0) = 10240 := by
  refine ⟨by decide, by decide, by decide, by decide, by decide, by decide,
    by decide, by decide⟩

/-! ## `mfatic_read` and `update_atime` — claim C10

A directory is modelled as a map from slot index to the 32-byte
directory record (`fat_direntry_t`, `fat.h`).  `update_atime`
(`dostimes.c`) reads the file's slot from its parent directory, stores
the DOS date for the new access time, and writes the slot back
(`get_directory_entry`/`put_directory_entry`).  The handle's
`directory_inode`/`dir_entry_index` pair is the `index` parameter
here. -/

structure fat_direntry where
  fname : List Nat
  attributes : Nat
  reserved : Nat
  creation_tenths : Nat
  creation_time : Nat
  creation_date : Nat
  access_date : Nat
  cluster_msb : Nat
  write_time : Nat
  write_date : Nat
  cluster_lsb : Nat
  size : Nat
deriving Repr, DecidableEq

/-- `update_atime`: rewrite the slot's `access_date` with the DOS date
of the new access time; all other slots and fields are untouched. -/
def update_atime (dir : Nat → fat_direntry) (index : Nat)
    (new_atime : Nat) : Nat → fat_direntry :=
  fun i =>
    if i = index then { dir index with access_date := dos_date new_atime }
    else dir i

/-- `mfatic_read`: update the access time, then seek to the requested
offset with `SEEK_SET`; if the seek's return value differs from the
requested offset, return `EOF` without transferring anything, else
transfer via `fat_read`. -/
def mfatic_read (cs : Nat) (dir : Nat → fat_direntry) (index : Nat)
    (fd : fat_file) (nbytes : Nat) (offset : Int) (now : Nat) :
    Int × (Nat → fat_direntry) × fat_file :=
  let dir1 := update_atime dir index now
  let sres := fat_seek cs fd offset 0
  if sres.1 ≠ offset then (EOF, dir1, sres.2)
  else
    let rres := fat_read cs sres.2 nbytes
    ((rres.1 : Int), dir1, rres.2)

/-- Claim C10: `mfatic_read` updates the parent slot's access date
before validating the offset: for every offset outside `[0, size)` the
slot's access date has been rewritten to `dos_date now` (other slots
untouched), and — unless the requested offset happens to equal the
seek's error code `-EINVAL` — the call returns `EOF` with no bytes
transferred (the handle's offset is unchanged). -/
theorem c10_read_updates_atime_before_validating (cs : Nat)
    (dir : Nat → fat_direntry) (index : Nat) (fd : fat_file) (nbytes : Nat)
    (offset : Int) (now : Nat)
    (hout : ¬(0 ≤ offset ∧ offset < (fd.size : Int))) :
    ((mfatic_read cs dir index fd nbytes offset now).2.1 index).access_date =
      dos_date now ∧
    (∀ i, i ≠ index →
      (mfatic_read cs dir index fd nbytes offset now).2.1 i = dir i) ∧
    (offset ≠ -EINVAL →
      (mfatic_read cs dir index fd nbytes offset now).1 = EOF ∧
      (mfatic_read cs dir index fd nbytes offset now).2.2.offset =
        fd.offset) := by
  have hseek : fat_seek cs fd offset 0 =
      ((set_offset fd offset).1,
        update_current_cluster cs (set_offset fd offset).2) := rfl
  have hso : set_offset fd offset = (-EINVAL, fd) := by
    rw [set_offset, if_neg hout]
  have hdir : (mfatic_read cs dir index fd nbytes offset now).2.1 =
      update_atime dir index now := by
    rw [mfatic_read]
    by_cases hc : (fat_seek cs fd offset 0).1 ≠ offset
    · rw [if_pos hc]
    · rw [if_neg hc]
  refine ⟨?_, ?_, ?_⟩
  · rw [hdir, update_atime]
    simp
  · intro i hi
    rw [hdir, update_atime]
    simp [hi]
  · intro hne
    have hcond : (fat_seek cs fd offset 0).1 ≠ offset := by
      rw [hseek, hso]
      intro hcon
      exact hne (by omega)
    have hread : mfatic_read cs dir index fd nbytes offset now =
        (EOF, update_atime dir index now, (fat_seek cs fd offset 0).2) := by
      rw [mfatic_read, if_pos hcond]
    rw [hread]
    refine ⟨rfl, ?_⟩
    rw [hseek, hso]
    rfl

/-- A directory with a recognisable access date in slot 0, for the C10
witness. -/
def dir_read_example : Nat → fat_direntry :=
  fun _ =>
    { fname := [65], attributes := 0, reserved := 0, creation_tenths := 0,
      creation_time := 0, creation_date := 0, access_date := 999,
      cluster_msb := 0, write_time := 0, write_date := 0, cluster_lsb := 2,
      size := 10 }

/-- Witness for C10: reading at offset 200 of a 100-byte file returns
`EOF` with the handle unmoved, yet the slot's access date has already
been rewritten (here to `dos_date 0 = 0`, previously 999). -/
theorem c10_read_updates_atime_before_validating_witness :
    ((mfatic_read 4096 dir_read_example 0 fd_seek_example 1 200 0).2.1
      0).access_date = 0 ∧
    (mfatic_read 4096 dir_read_example 0 fd_seek_example 1 200 0).1 = EOF ∧
    (dir_read_example 0).access_date = 999 := by
  have h := c10_read_updates_atime_before_validating 4096 dir_read_example 0
    fd_seek_example 1 200 0 (by decide)
  refine ⟨?_, (h.2.2 (by decide)).1, by decide⟩
  rw [h.1]
  decide

end Mfatic
